import Mathlib

/-!
Verification development for the codecount program (codecount.py).

The embedding models Python strings as `List Char` (sequences of Unicode
code points) and raw file contents as `List Nat` (byte values).  Each
definition mirrors one construct of the source: the language registry
(`langs`), the per-file line classifier (`scanfile` and its helpers), the
deduplicator (`remove_duplicates`), the accumulation of grand totals
(`accumulate`, mirroring `CodeCounter.run`) and the three report passes.
-/

namespace Codecount

/-! ## Python string primitives -/

/-- Code points removed by `str.strip()` (the `str.isspace` set). -/
def pySpace (c : Char) : Bool :=
  [9, 10, 11, 12, 13, 28, 29, 30, 31, 32, 133, 160, 0x1680,
    0x2000, 0x2001, 0x2002, 0x2003, 0x2004, 0x2005, 0x2006, 0x2007, 0x2008,
    0x2009, 0x200A, 0x2028, 0x2029, 0x202F, 0x205F, 0x3000].contains c.toNat

/-- `s.strip()`: remove leading and trailing whitespace. -/
def pyStrip (s : List Char) : List Char :=
  ((s.dropWhile pySpace).reverse.dropWhile pySpace).reverse

/-- Helper for `str.find`: first index, counting from `i`, where `pat`
occurs in the remaining list. -/
def findAux (pat : List Char) : List Char → Nat → Option Nat
  | [], i => if pat.isEmpty then some i else none
  | c :: t, i => if pat.isPrefixOf (c :: t) then some i else findAux pat t (i + 1)

/-- `s.find(pat)`; `none` models Python's `-1`. -/
def strFind (s pat : List Char) : Option Nat := findAux pat s 0

/-- `s.find(pat, start)`. -/
def strFindFrom (s pat : List Char) (start : Nat) : Option Nat :=
  (findAux pat (s.drop start) 0).map (fun i => i + start)

/-- `pat in s` (substring containment). -/
def strContains (s pat : List Char) : Bool := (strFind s pat).isSome

/-- `s.replace(pat, "", 1)`: remove the first occurrence of `pat`. -/
def replaceFirst (s pat : List Char) : List Char :=
  match strFind s pat with
  | some i => s.take i ++ s.drop (i + pat.length)
  | none => s

/-- Fuelled body of `s.replace(pat, "")`: remove every occurrence of `pat`,
scanning left to right and continuing after each removed span. -/
def replaceAllAux (pat : List Char) : Nat → List Char → List Char
  | 0, s => s
  | fuel + 1, s =>
    match strFind s pat with
    | some i => s.take i ++ replaceAllAux pat fuel (s.drop (i + pat.length))
    | none => s

/-- `s.replace(pat, "")`.  Fuel `s.length + 1` bounds the number of
removals, since each removal of a nonempty `pat` consumes characters. -/
def replaceAll (s pat : List Char) : List Char := replaceAllAux pat (s.length + 1) s

/-- ASCII fragment of `str.lower()`, applied code point by code point
(every extension in the registry is ASCII). -/
def lowerChar (c : Char) : Char :=
  if 65 ≤ c.toNat ∧ c.toNat ≤ 90 then Char.ofNat (c.toNat + 32) else c

/-- `s.lower()`. -/
def lowerStr (s : List Char) : List Char := s.map lowerChar

/-- Python string comparison `s <= t`: lexicographic on code points. -/
def pyStrLe : List Char → List Char → Bool
  | [], _ => true
  | _ :: _, [] => false
  | a :: s, b :: t => if a = b then pyStrLe s t else decide (a.toNat < b.toNat)

/-! ## `os.path.splitext` on a bare filename -/

/-- Index of the last dot in a list of characters. -/
def lastDotIdx : List Char → Option Nat
  | [] => none
  | c :: s =>
    match lastDotIdx s with
    | some i => some (i + 1)
    | none => if c = '.' then some 0 else none

/-- Extension component of `os.path.splitext(filename)` for a filename
with no directory separators: the suffix from the last dot on, unless
every character before that dot is itself a dot (then no extension). -/
def splitextExt (s : List Char) : List Char :=
  match lastDotIdx s with
  | none => []
  | some i => if (s.take i).all (fun c => c = '.') then [] else s.drop i

/-! ## UTF-8: the lossy decode done by `open(..., errors="ignore")` and the
re-encoding done by `line.encode("utf-8")` -/

/-- UTF-8 continuation byte. -/
def isCont (b : Nat) : Bool := decide (0x80 ≤ b ∧ b ≤ 0xBF)

/-- Valid second byte for a three-byte sequence headed by `b` (excludes
overlong forms and surrogates, as CPython's decoder does). -/
def cont3ok (b c : Nat) : Bool :=
  if b = 0xE0 then decide (0xA0 ≤ c ∧ c ≤ 0xBF)
  else if b = 0xED then decide (0x80 ≤ c ∧ c ≤ 0x9F)
  else isCont c

/-- Valid second byte for a four-byte sequence headed by `b`. -/
def cont4ok (b c : Nat) : Bool :=
  if b = 0xF0 then decide (0x90 ≤ c ∧ c ≤ 0xBF)
  else if b = 0xF4 then decide (0x80 ≤ c ∧ c ≤ 0x8F)
  else isCont c

/-- Fuelled body of `bytes.decode("utf-8", errors="ignore")`: decode,
dropping undecodable bytes.  An invalid byte is skipped one at a time,
which agrees with CPython's error-span skipping because a stray
continuation byte is itself invalid in start position.  A truncated
sequence at end of input is dropped.  One unit of fuel consumes at least
one byte, so fuel equal to the byte count suffices. -/
def utf8DecodeAux : Nat → List Nat → List Nat
  | 0, _ => []
  | _, [] => []
  | fuel + 1, b :: bs =>
    if b < 0x80 then b :: utf8DecodeAux fuel bs
    else if decide (0xC2 ≤ b ∧ b ≤ 0xDF) then
      match bs with
      | c :: bs2 =>
        if isCont c then ((b - 0xC0) * 64 + (c - 0x80)) :: utf8DecodeAux fuel bs2
        else utf8DecodeAux fuel bs
      | [] => []
    else if decide (0xE0 ≤ b ∧ b ≤ 0xEF) then
      match bs with
      | c :: d :: bs2 =>
        if cont3ok b c && isCont d then
          ((b - 0xE0) * 4096 + (c - 0x80) * 64 + (d - 0x80)) :: utf8DecodeAux fuel bs2
        else utf8DecodeAux fuel bs
      | [c] => if cont3ok b c then [] else utf8DecodeAux fuel bs
      | [] => []
    else if decide (0xF0 ≤ b ∧ b ≤ 0xF4) then
      match bs with
      | c :: d :: e :: bs2 =>
        if cont4ok b c && isCont d && isCont e then
          ((b - 0xF0) * 262144 + (c - 0x80) * 4096 + (d - 0x80) * 64 + (e - 0x80))
            :: utf8DecodeAux fuel bs2
        else utf8DecodeAux fuel bs
      | [c, d] => if cont4ok b c && isCont d then [] else utf8DecodeAux fuel bs
      | [c] => if cont4ok b c then [] else utf8DecodeAux fuel bs
      | [] => []
    else utf8DecodeAux fuel bs

/-- `bytes.decode("utf-8", errors="ignore")` as a list of code points. -/
def utf8DecodeIgnore (bs : List Nat) : List Nat := utf8DecodeAux bs.length bs

/-- The decoded text as characters. -/
def decodedChars (bs : List Nat) : List Char := (utf8DecodeIgnore bs).map Char.ofNat

/-- UTF-8 encoding of one code point. -/
def utf8EncodeChar (c : Nat) : List Nat :=
  if c < 0x80 then [c]
  else if c < 0x800 then [0xC0 + c / 64, 0x80 + c % 64]
  else if c < 0x10000 then
    [0xE0 + c / 4096, 0x80 + (c / 64) % 64, 0x80 + c % 64]
  else
    [0xF0 + c / 262144, 0x80 + (c / 4096) % 64, 0x80 + (c / 64) % 64, 0x80 + c % 64]

/-- `s.encode("utf-8")` on a list of code points. -/
def utf8Encode (cs : List Nat) : List Nat := cs.flatMap utf8EncodeChar

/-- Universal-newlines translation done by text-mode reading: `\r\n` and a
lone `\r` both become `\n`. -/
def univNewlines : List Char → List Char
  | [] => []
  | '\r' :: '\n' :: rest => '\n' :: univNewlines rest
  | '\r' :: rest => '\n' :: univNewlines rest
  | c :: rest => c :: univNewlines rest

/-- Split translated text into lines as `for line in fp` yields them: each
line keeps its trailing `\n`; a final fragment without `\n` is a line. -/
def splitLinesAux : List Char → List Char → List (List Char)
  | [], acc => if acc.isEmpty then [] else [acc.reverse]
  | c :: rest, acc =>
    if c = '\n' then (acc.reverse ++ ['\n']) :: splitLinesAux rest []
    else splitLinesAux rest (c :: acc)

def splitLines (s : List Char) : List (List Char) := splitLinesAux s []

/-- The lines `scanfile` iterates over, from the raw bytes of the file. -/
def linesOfBytes (bs : List Nat) : List (List Char) :=
  splitLines (univNewlines (decodedChars bs))

/-- The byte stream fed to the running SHA-256 digest by
`sha256.update(line.encode("utf-8"))`, one line at a time.  Two files
feeding equal streams receive equal digests, so digest equality is
modelled by equality of this stream. -/
def digestInput (bs : List Nat) : List Nat :=
  ((linesOfBytes bs).map (fun l => utf8Encode (l.map Char.toNat))).flatten

/-! ## The language registry (`CodeCounter.langs`), in declaration order -/

structure LangRule where
  bcomm : List (List Char × List Char)
  comment : List (List Char)
  endcode : List (List Char)
  ext : List (List Char)
deriving DecidableEq

/-- The single-quote line-comment marker of IBM Macro and VB. -/
def squote : List Char := [Char.ofNat 39]

/-- The registry.  A Python `dict` iterates in insertion order, so the
declaration order of `codecount.py` is modelled by list order. -/
def langs : List (String × LangRule) := [
  ("C", ⟨[("/*".toList, "*/".toList)], ["//".toList], [], [".c".toList]⟩),
  ("C++", ⟨[("/*".toList, "*/".toList)], ["//".toList], [], [".cpp".toList]⟩),
  ("C#", ⟨[("/*".toList, "*/".toList)], ["//".toList], [], [".cs".toList]⟩),
  ("C Header", ⟨[("/*".toList, "*/".toList)], ["//".toList], [], [".h".toList]⟩),
  ("CSS", ⟨[("/*".toList, "*/".toList)], [], [], [".css".toList]⟩),
  ("Cython", ⟨[], ["#".toList], [], [".pyx".toList]⟩),
  ("Go", ⟨[], ["//".toList], [], [".go".toList]⟩),
  ("HTML", ⟨[("<!--".toList, "-->".toList)], [], [],
    [".html".toList, ".htm".toList, ".jinja".toList]⟩),
  ("IBM Macro", ⟨[("/*".toList, "*/".toList)], [squote], [], [".mac".toList]⟩),
  ("Java", ⟨[("/*".toList, "*/".toList)], ["//".toList], [], [".java".toList]⟩),
  ("Javascript", ⟨[("/*".toList, "*/".toList)], ["//".toList], [], [".js".toList]⟩),
  ("Perl", ⟨[], ["//".toList, "#".toList], ["__END__".toList], [".pl".toList]⟩),
  ("PHP", ⟨[("/*".toList, "*/".toList)], ["//".toList, "#".toList], [], [".php".toList]⟩),
  ("Python", ⟨[], ["#".toList], [], [".py".toList, ".pyw".toList]⟩),
  ("RPG", ⟨[], ["*".toList, "*".toList, "C*".toList, "c*".toList, "D*".toList,
    "d*".toList, "F*".toList, "f*".toList, "H*".toList, "h*".toList], [],
    [".rpgle".toList, ".sqlrpgle".toList]⟩),
  ("Ruby", ⟨[], ["#".toList], ["__END__".toList], [".rb".toList]⟩),
  ("SQL", ⟨[], [], [], [".sql".toList]⟩),
  ("Text", ⟨[], [], [], [".txt".toList]⟩),
  ("VB", ⟨[("/*".toList, "*/".toList)], [squote], [],
    [".vb".toList, ".mac".toList, ".frm".toList, ".bas".toList]⟩),
  ("XML", ⟨[("<!--".toList, "-->".toList)], [], [], [".xml".toList, ".csproj".toList]⟩),
  ("Yaml", ⟨[], ["#".toList], [], [".yaml".toList]⟩)]

/-- Language resolution: the loop `for l in self.langs: if
filename.extension in self.langs[l]["ext"]: ... break` — first language in
declaration order whose extension list contains the (lowercased)
extension. -/
def resolve (ext : List Char) : Option String :=
  (langs.find? (fun p => p.2.ext.contains ext)).map (fun p => p.1)

/-! ## The per-file classifier state machine (`CodeCounter.scanfile`) -/

/-- The per-file mutable scan variables of `scanfile`: `inblock`,
`strblock`, `endblock` (each `None` before first assignment) and the
`endcode` flag. -/
structure ScanSt where
  inblock : Bool
  strblock : Option (List Char)
  endblock : Option (List Char)
  endcode : Bool
deriving DecidableEq

/-- Initial state at the top of `scanfile`. -/
def initSt : ScanSt := ⟨false, none, none, false⟩

/-- Classification outcome of a single line. -/
inductive Cls where
  | code
  | comment
  | blank
deriving DecidableEq

/-- The `while token in line` loop of `scanfile` for one block-comment
pair `(sb, eb)`: find the start token, find the end token at or after it;
the `TODO: Temporary fix` breaks out unless the end-token position is
strictly positive; otherwise the span through the end token is excised
(or, in the branch the guard makes unreachable, the rest of the line is
excised and `inblock` is set).  Each non-breaking iteration removes at
least one character, so fuel `line.length + 1` bounds the loop. -/
def pairLoop (sb eb : List Char) : Nat → List Char → Bool → List Char × Bool
  | 0, line, ib => (line, ib)
  | fuel + 1, line, ib =>
    match strFind line sb with
    | none => (line, ib)
    | some spos =>
      match strFindFrom line eb spos with
      | none => (line, ib)
      | some epos =>
        if epos = 0 then (line, ib)
        else if strContains line eb then
          pairLoop sb eb fuel
            (replaceFirst line ((line.drop spos).take (epos + eb.length - spos))) ib
        else
          pairLoop sb eb fuel (replaceFirst line (line.drop spos)) true

/-- The `for token in self.langs[filename.lang]["bcomm"]` loop: every pair
is visited in definition order, `strblock`/`endblock` are reassigned for
each pair, and the pair's `while` loop rewrites the line. -/
def bcommScan : List (List Char × List Char) → List Char → ScanSt → List Char × ScanSt
  | [], line, st => (line, st)
  | (sb, eb) :: rest, line, st =>
    let st1 : ScanSt := { st with strblock := some sb, endblock := some eb }
    let r := pairLoop sb eb (line.length + 1) line st1.inblock
    bcommScan rest r.1 { st1 with inblock := r.2 }

/-- The `else` branch of `scanfile` taken when `inblock` is set: if the
remembered end token occurs, remove every occurrence of the prefix up to
and including it (`line.replace(line[:pos+len], "")`), strip, and leave
the block; otherwise the whole line is comment text.  The `none` case is
unreachable in the source: `endblock` is assigned before `inblock` can be
set. -/
def inblockHandle (line : List Char) (st : ScanSt) : List Char × ScanSt :=
  match st.endblock with
  | none => ([], st)
  | some eb =>
    if strContains line eb then
      (pyStrip (replaceAll line (line.take ((strFind line eb).getD 0 + eb.length))),
        { st with inblock := false })
    else ([], st)

/-- Per-line body of the `for line in fp` loop in `scanfile`, in source
order: strip; blank check; `endcode` check; block-comment processing;
emptied-by-excision check; line-comment prefixes; otherwise code, then the
end-of-code sentinel comparison. -/
def classifyLine (rule : LangRule) (st : ScanSt) (raw : List Char) : Cls × ScanSt :=
  let line := pyStrip raw
  if line.isEmpty then (Cls.blank, st)
  else if st.endcode then (Cls.comment, st)
  else
    let r := if ¬ st.inblock then bcommScan rule.bcomm line st else inblockHandle line st
    if r.1.isEmpty then (Cls.comment, r.2)
    else if rule.comment.any (fun t => t.isPrefixOf r.1) then (Cls.comment, r.2)
    else
      let st3 := if rule.endcode.any (fun e => r.1 = e) then
        { r.2 with endcode := true } else r.2
      (Cls.code, st3)

/-- Per-file counters. -/
structure Counts where
  lines : Nat
  code : Nat
  comments : Nat
  blanks : Nat
deriving DecidableEq

/-- Increment the counter chosen by the classification. -/
def bump (c : Counts) : Cls → Counts
  | Cls.code => { c with code := c.code + 1 }
  | Cls.comment => { c with comments := c.comments + 1 }
  | Cls.blank => { c with blanks := c.blanks + 1 }

/-- Run the classifier over the lines of one file. -/
def scanLinesAux (rule : LangRule) : List (List Char) → ScanSt → Counts → Counts
  | [], _, c => c
  | l :: ls, st, c =>
    let r := classifyLine rule st l
    scanLinesAux rule ls r.2 (bump { c with lines := c.lines + 1 } r.1)

/-- Counts produced by one classifier pass over a file's lines. -/
def scanLines (rule : LangRule) (ls : List (List Char)) : Counts :=
  scanLinesAux rule ls initSt ⟨0, 0, 0, 0⟩

/-! ## File records (`class Filename`) and `scanfile` -/

structure Filename where
  path : List Char
  name : List Char
  extension : List Char
  lang : Option String
  lines : Nat
  comments : Nat
  blanks : Nat
  code : Nat
  size : Nat
  sha : Option (List Nat)
  shortpath : List Char
  shortname : List Char
deriving DecidableEq

/-- `Filename.__init__`: the extension is the lowercased `splitext`
extension; counts start at zero, `lang` and the digest at `None`;
`shortpath` is a dot followed by a stripped 78-character slice of the path
past the argument path; `shortname` abbreviates names over 30 characters.
The byte size comes from `os.stat`. -/
def mkFilename (argpath path name : List Char) (size : Nat) : Filename :=
  { path := path
    name := name
    extension := lowerStr (splitextExt name)
    lang := none
    lines := 0
    comments := 0
    blanks := 0
    code := 0
    size := size
    sha := none
    shortpath := '.' :: pyStrip ((path.drop argpath.length).take 78)
    shortname := if 30 < name.length then
        pyStrip (name.take 20) ++ '~' :: lowerStr (splitextExt name)
      else name }

/-- `CodeCounter.scanfile`, with the file's raw bytes passed explicitly
(the source reads them from disk): zero-size files and files whose
extension resolves to no language return unchanged; otherwise the record
gets the resolved language, the classifier's counts, and the digest of the
byte stream fed to SHA-256. -/
def scanfile (f : Filename) (content : List Nat) : Filename :=
  if f.size = 0 then f
  else
    match langs.find? (fun p => p.2.ext.contains f.extension) with
    | none => f
    | some p =>
      let c := scanLines p.2 (linesOfBytes content)
      { f with lang := some p.1
               lines := c.lines
               code := c.code
               comments := c.comments
               blanks := c.blanks
               sha := some (digestInput content) }

/-! ## Deduplication, grand totals, and the run sequence -/

/-- One step of `remove_duplicates`: `if filename.sha256 not in unique:
unique[filename.sha256] = filename`, with the dict's insertion order
modelled by the accumulator list. -/
def rdStep (acc : List Filename) (f : Filename) : List Filename :=
  if acc.any (fun g => g.sha == f.sha) then acc else acc ++ [f]

/-- `CodeCounter.remove_duplicates`: a dict keyed by digest keeps the
first record per key, and dict order is insertion order, so the result is
the first record of each digest in enumeration order. -/
def remove_duplicates (l : List Filename) : List Filename := l.foldl rdStep []

/-- `if not self.args.include: self.remove_duplicates()`. -/
def keptFiles (includeDup : Bool) (l : List Filename) : List Filename :=
  if includeDup then l else remove_duplicates l

structure Totals where
  tfiles : Nat
  tlines : Nat
  tcode : Nat
  tcomments : Nat
  tblanks : Nat
deriving DecidableEq

/-- One step of the accumulation loop in `CodeCounter.run`. -/
def accStep (t : Totals) (f : Filename) : Totals :=
  { tfiles := if 0 < f.lines then t.tfiles + 1 else t.tfiles
    tlines := t.tlines + f.lines
    tcode := t.tcode + f.code
    tcomments := t.tcomments + f.comments
    tblanks := t.tblanks + f.blanks }

/-- The accumulation loop over the (post-deduplication) file list. -/
def accumulate (l : List Filename) : Totals := l.foldl accStep ⟨0, 0, 0, 0, 0⟩

/-- Raw enumeration data for one file: what `walk` hands to `Filename`
plus the bytes `scanfile` will read. -/
structure RawInput where
  path : List Char
  name : List Char
  size : Nat
  content : List Nat
deriving DecidableEq

/-- Scan every enumerated file, deduplicate unless `--include`, and
accumulate grand totals, as `CodeCounter.run` does. -/
def pipeline (argpath : List Char) (includeDup : Bool) (files : List RawInput) : Totals :=
  accumulate (keptFiles includeDup
    (files.map (fun i => scanfile (mkFilename argpath i.path i.name i.size) i.content)))

/-! ## Reports -/

/-- Key used by the by-language sort: `str(filename.lang)`, which is the
string `"None"` for an unresolved language. -/
def langKey (f : Filename) : List Char :=
  match f.lang with
  | none => "None".toList
  | some s => s.toList

/-- One detail row: text column and the files/blank/comment/code/lines
numbers of `report_detail`. -/
def fileRow (f : Filename) : List Char × Nat × Nat × Nat × Nat × Nat :=
  (f.shortname, 1, f.blanks, f.comments, f.code, f.lines)

/-- `report_file`: sort by descending code count (Python's stable sort
with `reverse=True`), skip records with no resolved language, one row per
remaining record. -/
def report_file_rows (l : List Filename) : List (List Char × Nat × Nat × Nat × Nat × Nat) :=
  ((List.insertionSort (fun f g => g.code ≤ f.code) l).filter
    (fun f => f.lang.isSome)).map fileRow

/-- The running subtotal dict of `report_dir` / `report_lang`; `key` is
the current group key (`None` before any group starts). -/
structure GroupAcc where
  key : Option (List Char)
  file : Nat
  blank : Nat
  comment : Nat
  code : Nat
  line : Nat

/-- Contiguous-run grouping pass of `report_dir` over the pre-sorted list:
equal `shortpath` extends the running subtotal, a new key emits the
previous row (only when the stored key is truthy, i.e. neither `None` nor
empty) and resets.  No record is skipped: the `shortpath is None` guard in
the source never fires since `shortpath` always starts with a dot. -/
def dirRowsGo : List Filename → GroupAcc → List (List Char × Nat × Nat × Nat × Nat × Nat)
  | [], t =>
    match t.key with
    | some d => if d.isEmpty then [] else [(d, t.file, t.blank, t.comment, t.code, t.line)]
    | none => []
  | f :: fs, t =>
    if t.key = some f.shortpath then
      dirRowsGo fs { t with file := t.file + 1
                            blank := t.blank + f.blanks
                            comment := t.comment + f.comments
                            code := t.code + f.code
                            line := t.line + f.lines }
    else
      let rest := dirRowsGo fs ⟨some f.shortpath, 1, f.blanks, f.comments, f.code, f.lines⟩
      match t.key with
      | some d =>
        if d.isEmpty then rest else (d, t.file, t.blank, t.comment, t.code, t.line) :: rest
      | none => rest

/-- `report_dir`: sort by `str(shortpath)` then group contiguous runs. -/
def report_dir_rows (l : List Filename) : List (List Char × Nat × Nat × Nat × Nat × Nat) :=
  dirRowsGo (List.insertionSort (fun f g => pyStrLe f.shortpath g.shortpath = true) l)
    ⟨none, 0, 0, 0, 0, 0⟩

/-- Contiguous-run grouping pass of `report_lang` over the pre-sorted
list: records with no resolved language are skipped by the `continue`. -/
def langRowsGo : List Filename → GroupAcc → List (List Char × Nat × Nat × Nat × Nat × Nat)
  | [], t =>
    match t.key with
    | some d => if d.isEmpty then [] else [(d, t.file, t.blank, t.comment, t.code, t.line)]
    | none => []
  | f :: fs, t =>
    match f.lang with
    | none => langRowsGo fs t
    | some lname =>
      if t.key = some lname.toList then
        langRowsGo fs { t with file := t.file + 1
                               blank := t.blank + f.blanks
                               comment := t.comment + f.comments
                               code := t.code + f.code
                               line := t.line + f.lines }
      else
        let rest := langRowsGo fs ⟨some lname.toList, 1, f.blanks, f.comments, f.code, f.lines⟩
        match t.key with
        | some d =>
          if d.isEmpty then rest else (d, t.file, t.blank, t.comment, t.code, t.line) :: rest
        | none => rest

/-- `report_lang`: sort by `str(lang)` then group contiguous runs. -/
def report_lang_rows (l : List Filename) : List (List Char × Nat × Nat × Nat × Nat × Nat) :=
  langRowsGo (List.insertionSort (fun f g => pyStrLe (langKey f) (langKey g) = true) l)
    ⟨none, 0, 0, 0, 0, 0⟩

/-! ## The order of the run (`CodeCounter.run` / `CodeCounter.output`) -/

/-- Observable phases of one run, in execution order. -/
inductive RunEvent where
  | walk
  | dumpLangs
  | scanFile
  | dedup
  | report
deriving DecidableEq

/-- The sequence of phases `CodeCounter.run` executes: `listfiles` (the
directory walk) runs unconditionally, then `output` either dumps the
registry and exits via `sys.exit` (when `--output-languages` is given) or
does nothing, after which every file is scanned, duplicates are removed
unless `--include`, and the report is printed. -/
def runEvents (outputLanguages includeDup : Bool) (nfiles : Nat) : List RunEvent :=
  RunEvent.walk ::
    (if outputLanguages then [RunEvent.dumpLangs]
     else List.replicate nfiles RunEvent.scanFile
       ++ (if includeDup then [] else [RunEvent.dedup])
       ++ [RunEvent.report])

/-- The data written by `output_json_langs`: a serialization of `langs`
alone — it depends on no file tree. -/
def dumpLangsContent : List (String × LangRule) := langs

/-- ASCII string to bytes, for writing concrete file contents. -/
def asciiBytes (s : String) : List Nat := s.toList.map Char.toNat

/-! ## Helper lemmas -/

/-- Each classified line bumps `lines` and exactly one of the three
category counters, so the partition `lines = code + comments + blanks` is
preserved along the scan. -/
theorem scanLinesAux_partition (rule : LangRule) (ls : List (List Char)) :
    ∀ (st : ScanSt) (c : Counts), c.lines = c.code + c.comments + c.blanks →
      (scanLinesAux rule ls st c).lines =
        (scanLinesAux rule ls st c).code + (scanLinesAux rule ls st c).comments +
          (scanLinesAux rule ls st c).blanks := by
  induction ls with
  | nil => intro st c h; simpa [scanLinesAux] using h
  | cons l ls ih =>
    intro st c h
    simp only [scanLinesAux]
    apply ih
    cases (classifyLine rule st l).1 <;> simp [bump] <;> omega

/-- The counts of one full classifier pass satisfy the partition. -/
theorem scanLines_partition (rule : LangRule) (ls : List (List Char)) :
    (scanLines rule ls).lines =
      (scanLines rule ls).code + (scanLines rule ls).comments +
        (scanLines rule ls).blanks := by
  simpa [scanLines] using scanLinesAux_partition rule ls initSt ⟨0, 0, 0, 0⟩ rfl

/-- `scanfile` preserves the partition invariant of a record. -/
theorem scanfile_partition (f : Filename) (content : List Nat)
    (h : f.lines = f.code + f.comments + f.blanks) :
    (scanfile f content).lines =
      (scanfile f content).code + (scanfile f content).comments +
        (scanfile f content).blanks := by
  unfold scanfile
  split
  · exact h
  · split
    · exact h
    · simpa using scanLines_partition _ _

/-- A record whose extension resolves to no language is returned by
`scanfile` unchanged. -/
theorem scanfile_unknown (f : Filename) (content : List Nat)
    (h : resolve f.extension = none) :
    scanfile f content = f := by
  have hf : langs.find? (fun p => p.2.ext.contains f.extension) = none := by
    simpa [resolve] using h
  unfold scanfile
  rw [hf]
  split <;> rfl

/-- Accumulating a record with all-zero counts leaves the totals alone. -/
theorem accStep_of_zero (t : Totals) (f : Filename) (h1 : f.lines = 0)
    (h2 : f.code = 0) (h3 : f.comments = 0) (h4 : f.blanks = 0) :
    accStep t f = t := by
  cases t
  simp [accStep, h1, h2, h3, h4]

/-- The accumulation loop preserves the totals partition whenever every
record it folds in satisfies the per-file partition. -/
theorem accumulate_foldl_partition :
    ∀ (l : List Filename) (t : Totals),
      t.tlines = t.tcode + t.tcomments + t.tblanks →
      (∀ f ∈ l, f.lines = f.code + f.comments + f.blanks) →
      (l.foldl accStep t).tlines =
        (l.foldl accStep t).tcode + (l.foldl accStep t).tcomments +
          (l.foldl accStep t).tblanks := by
  intro l
  induction l with
  | nil => intro t h _; simpa using h
  | cons f fs ih =>
    intro t h hm
    simp only [List.foldl_cons]
    apply ih
    · have hf := hm f (by simp)
      simp [accStep]
      omega
    · intro g hg
      exact hm g (by simp [hg])

/-- Grand totals satisfy the partition when every record does. -/
theorem accumulate_partition (l : List Filename)
    (hm : ∀ f ∈ l, f.lines = f.code + f.comments + f.blanks) :
    (accumulate l).tlines =
      (accumulate l).tcode + (accumulate l).tcomments + (accumulate l).tblanks :=
  accumulate_foldl_partition l ⟨0, 0, 0, 0, 0⟩ rfl hm

/-- A record with zero counts anywhere in the list drops out of the
accumulation. -/
theorem accumulate_elim_zero (u : Filename) (h1 : u.lines = 0) (h2 : u.code = 0)
    (h3 : u.comments = 0) (h4 : u.blanks = 0) (l1 l2 : List Filename) :
    accumulate (l1 ++ u :: l2) = accumulate (l1 ++ l2) := by
  unfold accumulate
  rw [List.foldl_append, List.foldl_append, List.foldl_cons,
    accStep_of_zero _ _ h1 h2 h3 h4]

/-- Every record kept by the deduplication fold comes from the
accumulator or the input list. -/
theorem rd_foldl_mem :
    ∀ (l acc : List Filename) (x : Filename), x ∈ l.foldl rdStep acc →
      x ∈ acc ∨ x ∈ l := by
  intro l
  induction l with
  | nil => intro acc x hx; exact Or.inl hx
  | cons f fs ih =>
    intro acc x hx
    rcases ih (rdStep acc f) x hx with h | h
    · unfold rdStep at h
      split at h
      · exact Or.inl h
      · rcases List.mem_append.mp h with h | h
        · exact Or.inl h
        · simp at h
          simp [h]
    · simp [h]

/-- Deduplication keeps only records of the input list. -/
theorem remove_duplicates_subset (l : List Filename) (x : Filename)
    (hx : x ∈ remove_duplicates l) : x ∈ l := by
  rcases rd_foldl_mem l [] x hx with h | h
  · simp at h
  · exact h

/-- Core dedup property, generalized over the accumulator: after the
fold, the records carrying a given digest are those already in the
accumulator, followed — only when the accumulator has none — by the first
such record of the input. -/
theorem rd_foldl_filter (d : Option (List Nat)) :
    ∀ (l acc : List Filename),
      (l.foldl rdStep acc).filter (fun f => f.sha == d) =
        acc.filter (fun f => f.sha == d) ++
          (if acc.any (fun f => f.sha == d) then []
            else (l.filter (fun f => f.sha == d)).take 1) := by
  intro l
  induction l with
  | nil =>
    intro acc
    cases h : acc.any (fun f => f.sha == d) <;> simp [h]
  | cons f fs ih =>
    intro acc
    simp only [List.foldl_cons]
    rw [ih (rdStep acc f)]
    by_cases hd : f.sha = d
    · have hfun : (fun g : Filename => g.sha == f.sha) = fun g : Filename => g.sha == d := by
        funext g
        rw [hd]
      by_cases ha : acc.any (fun g => g.sha == d)
      · have hstep : rdStep acc f = acc := by
          simp [rdStep, hfun, ha]
        simp [hstep, ha, List.filter_cons, hd]
      · have hstep : rdStep acc f = acc ++ [f] := by
          simp [rdStep, hfun, ha]
        simp [hstep, ha, List.filter_cons, List.filter_append, List.any_append, hd]
    · have hKf : (f.sha == d) = false := by
        simp [hd]
      by_cases ha : acc.any (fun g => g.sha == f.sha)
      · have hstep : rdStep acc f = acc := by
          simp [rdStep, ha]
        simp [hstep, List.filter_cons, hKf]
      · have hstep : rdStep acc f = acc ++ [f] := by
          simp [rdStep, ha]
        simp [hstep, List.filter_cons, List.filter_append, List.any_append, hKf]

/-- The records with a given digest that survive deduplication are
exactly the first input record with that digest. -/
theorem remove_duplicates_filter_key (l : List Filename) (d : Option (List Nat)) :
    (remove_duplicates l).filter (fun f => f.sha == d) =
      (l.filter (fun f => f.sha == d)).take 1 := by
  have h := rd_foldl_filter d l []
  simpa [remove_duplicates] using h

/-- Filtering discards an element inserted by `orderedInsert` when the
predicate rejects it. -/
theorem filter_orderedInsert_of_neg {α : Type} (r : α → α → Prop) [DecidableRel r]
    (p : α → Bool) (a : α) (hp : p a = false) :
    ∀ l : List α, (List.orderedInsert r a l).filter p = l.filter p := by
  intro l
  induction l with
  | nil => simp [List.orderedInsert, hp]
  | cons b t ih =>
    simp only [List.orderedInsert]
    split
    · simp [List.filter_cons, hp]
    · simp [List.filter_cons, ih]

/-- `orderedInsert` splits the list around the inserted element. -/
theorem orderedInsert_split {α : Type} (r : α → α → Prop) [DecidableRel r] (a : α) :
    ∀ l : List α, ∃ l1 l2, List.orderedInsert r a l = l1 ++ a :: l2 ∧ l = l1 ++ l2 := by
  intro l
  induction l with
  | nil => exact ⟨[], [], rfl, rfl⟩
  | cons b t ih =>
    simp only [List.orderedInsert]
    split
    · exact ⟨[], b :: t, rfl, rfl⟩
    · rcases ih with ⟨l1, l2, h1, h2⟩
      exact ⟨b :: l1, l2, by simp [h1], by simp [h2]⟩

/-- The by-language grouping pass ignores a record with no resolved
language wherever it sits in the sorted list. -/
theorem langRowsGo_skips_unresolved (u : Filename) (hu : u.lang = none) :
    ∀ (l1 l2 : List Filename) (t : GroupAcc),
      langRowsGo (l1 ++ u :: l2) t = langRowsGo (l1 ++ l2) t := by
  intro l1
  induction l1 with
  | nil =>
    intro l2 t
    simp [langRowsGo, hu]
  | cons f fs ih =>
    intro l2 t
    cases hf : f.lang with
    | none =>
      simp only [List.cons_append, langRowsGo, hf]
      exact ih l2 t
    | some lname =>
      simp only [List.cons_append, langRowsGo, hf]
      by_cases hk : t.key = some lname.toList
      · simp only [if_pos hk]
        exact ih l2 _
      · simp only [if_neg hk, List.append_eq]
        rw [ih l2]

/-- Prepending a record with no resolved language leaves the by-file
report unchanged: the sort inserts it somewhere, the skip drops it. -/
theorem report_file_rows_cons_of_unresolved (u : Filename) (hu : u.lang = none)
    (l : List Filename) :
    report_file_rows (u :: l) = report_file_rows l := by
  unfold report_file_rows
  rw [show List.insertionSort (fun f g : Filename => g.code ≤ f.code) (u :: l) =
      List.orderedInsert (fun f g : Filename => g.code ≤ f.code) u
        (List.insertionSort (fun f g : Filename => g.code ≤ f.code) l) from rfl]
  rw [filter_orderedInsert_of_neg _ _ u (by simp [hu])]

/-- Prepending a record with no resolved language leaves the by-language
report unchanged. -/
theorem report_lang_rows_cons_of_unresolved (u : Filename) (hu : u.lang = none)
    (l : List Filename) :
    report_lang_rows (u :: l) = report_lang_rows l := by
  unfold report_lang_rows
  rw [show List.insertionSort
        (fun f g : Filename => pyStrLe (langKey f) (langKey g) = true) (u :: l) =
      List.orderedInsert (fun f g : Filename => pyStrLe (langKey f) (langKey g) = true) u
        (List.insertionSort
          (fun f g : Filename => pyStrLe (langKey f) (langKey g) = true) l) from rfl]
  rcases orderedInsert_split
      (fun f g : Filename => pyStrLe (langKey f) (langKey g) = true) u
      (List.insertionSort
        (fun f g : Filename => pyStrLe (langKey f) (langKey g) = true) l) with
    ⟨l1, l2, h1, h2⟩
  rw [h1, langRowsGo_skips_unresolved u hu l1 l2, ← h2]

/-- A single record forms a single by-directory row carrying `1` in the
file column, provided its `shortpath` is truthy (every `shortpath` starts
with a dot). -/
theorem report_dir_rows_singleton (u : Filename) (hne : u.shortpath.isEmpty = false) :
    report_dir_rows [u] =
      [(u.shortpath, 1, u.blanks, u.comments, u.code, u.lines)] := by
  have hsort : List.insertionSort
      (fun f g : Filename => pyStrLe f.shortpath g.shortpath = true) [u] = [u] := rfl
  unfold report_dir_rows
  rw [hsort]
  simp [dirRowsGo, hne]

/-- The concatenation of the split lines restores the text. -/
theorem splitLinesAux_flatten :
    ∀ (s acc : List Char), (splitLinesAux s acc).flatten = acc.reverse ++ s := by
  intro s
  induction s with
  | nil =>
    intro acc
    by_cases h : acc.isEmpty
    · have : acc = [] := by simpa using h
      simp [splitLinesAux, this]
    · simp [splitLinesAux, h]
  | cons c rest ih =>
    intro acc
    by_cases hc : c = '\n'
    · simp [splitLinesAux, hc, ih]
    · rw [show splitLinesAux (c :: rest) acc = splitLinesAux rest (c :: acc) by
        simp [splitLinesAux, hc]]
      simp [ih]

theorem splitLines_flatten (s : List Char) : (splitLines s).flatten = s := by
  simpa [splitLines] using splitLinesAux_flatten s []

/-- UTF-8 encoding distributes over concatenation of line lists. -/
theorem utf8Encode_flatten :
    ∀ L : List (List Nat), utf8Encode L.flatten = (L.map utf8Encode).flatten := by
  intro L
  induction L with
  | nil => rfl
  | cons l L ih =>
    simp only [utf8Encode] at ih ⊢
    simp [List.flatMap_append, ih, utf8Encode]

/-- Feeding the digest line by line equals feeding the whole decoded,
newline-translated, re-encoded text at once. -/
theorem digestInput_eq_encode_decoded (bs : List Nat) :
    digestInput bs = utf8Encode ((univNewlines (decodedChars bs)).map Char.toNat) := by
  unfold digestInput linesOfBytes
  rw [show ((splitLines (univNewlines (decodedChars bs))).map
        (fun l => utf8Encode (l.map Char.toNat))) =
      (((splitLines (univNewlines (decodedChars bs))).map
        (List.map Char.toNat)).map utf8Encode) by
    simp [List.map_map]]
  rw [← utf8Encode_flatten]
  rw [← List.map_flatten]
  rw [splitLines_flatten]

/-- Pointwise case-equivalent strings lowercase identically. -/
theorem lowerStr_congr {e1 e2 : List Char}
    (h : List.Forall₂ (fun a b => lowerChar a = lowerChar b) e1 e2) :
    lowerStr e1 = lowerStr e2 := by
  induction h with
  | nil => rfl
  | cons hab _ ih => simp [lowerStr] at ih ⊢; exact ⟨hab, ih⟩

/-! ## Concrete files used by the claims -/

/-- The argument path / walk root `"."`. -/
def dotPath : List Char := String.toList "."

/-- The record produced by scanning the specification's three-line
block-comment example as a C file. -/
def c1scan : Filename :=
  scanfile (mkFilename dotPath dotPath (String.toList "t.c") 45)
    (asciiBytes "int x; /* start\nstill comment\nend */ int y;\n")

/-- The record produced by scanning the specification's four-line
end-of-code sentinel example as a Perl file. -/
def c2scan : Filename :=
  scanfile (mkFilename dotPath dotPath (String.toList "t.pl") 26)
    (asciiBytes "code();\n__END__\nmore(); \n\n")

/-! ## Claims -/

/-- C1: the specification (and the comment block inside `scanfile`, ex2,
ex3 and ex6) promise that a start token with no following end token
excises to end of line and enters the in-block state, so that the
three-line example yields Code, Comment, Code (2 code, 1 comment, 0
blank).  The `TODO: Temporary fix` break fires whenever the end token is
absent, making the `inblock = True` assignment unreachable; every line of
the example is classified Code (3 code, 0 comment, 0 blank, 3 lines), and
even a lone `"/\x2a"` line — ex6, documented as Comment — is Code. -/
theorem c1_block_comment_state_never_entered :
    (c1scan.code, c1scan.comments, c1scan.blanks, c1scan.lines) = (3, 0, 0, 3)
  ∧ (scanfile (mkFilename dotPath dotPath (String.toList "u.c") 3)
      (asciiBytes "/*\n")).code = 1 := by
  decide

/-- C2 counterexample: on the specification's own four-line sentinel
example the trailing blank line is classified Blank, not Comment — the
blank check precedes the `endcode` check in `scanfile` — so the totals
are 2 code, 1 comment, 1 blank, 4 lines, not the claimed 2/2/0/4. -/
theorem c2_counterexample_blank_after_sentinel :
    (c2scan.code, c2scan.comments, c2scan.blanks, c2scan.lines) = (2, 1, 1, 4)
  ∧ c2scan.blanks ≠ 0 ∧ c2scan.comments ≠ 2 := by
  decide

/-- C2 amended: once the `endcode` flag is set, every subsequent line
that strips non-empty is classified Comment and the state is unchanged,
but a line that strips to empty is still classified Blank, because the
blank check runs first; the four-line sentinel example therefore totals
2 code, 1 comment, 1 blank, 4 lines. -/
theorem c2_amended_sentinel_comments_only_nonblank :
    (∀ (rule : LangRule) (st : ScanSt) (raw : List Char), st.endcode = true →
      classifyLine rule st raw =
        ((if (pyStrip raw).isEmpty then Cls.blank else Cls.comment), st))
  ∧ (c2scan.code, c2scan.comments, c2scan.blanks, c2scan.lines) = (2, 1, 1, 4) := by
  constructor
  · intro rule st raw h
    by_cases he : (pyStrip raw).isEmpty <;> simp [classifyLine, h, he]
  · decide

/-- C2 witness: the amended rule applied to a concrete post-sentinel
non-blank line. -/
theorem c2_amended_witness :
    classifyLine ⟨[], [], [], []⟩ ⟨false, none, none, true⟩ (String.toList "x") =
      (Cls.comment, ⟨false, none, none, true⟩) := by
  have h := c2_amended_sentinel_comments_only_nonblank.1 ⟨[], [], [], []⟩
    ⟨false, none, none, true⟩ (String.toList "x") rfl
  rw [h]
  decide

/-- C3 counterexample: the digest is fed the lossily decoded and
re-encoded text, not the raw bytes — the file is opened with
`errors="ignore"` before `line.encode("utf-8")` is hashed — so the two
distinct byte contents `[0xFF, 0x61]` and `[0x61]`, which differ only in
an undecodable byte, feed identical streams and receive identical
digests, contradicting the claim that they must differ. -/
theorem c3_counterexample_digest_not_raw_bytes :
    ([255, 97] : List Nat) ≠ [97]
  ∧ (scanfile (mkFilename dotPath dotPath (String.toList "a.c") 2) [255, 97]).sha =
      (scanfile (mkFilename dotPath dotPath (String.toList "b.c") 1) [97]).sha
  ∧ digestInput [255, 97] ≠ [255, 97] := by
  decide

/-- C3 amended: the content digest hashes the file's bytes after lossy
UTF-8 decoding (undecodable bytes dropped), universal-newline
translation, and UTF-8 re-encoding; feeding it line by line in line
order, regardless of classification, equals feeding that whole normalized
stream, and two files differing only in dropped bytes digest equal. -/
theorem c3_amended_digest_of_decoded_text :
    (∀ bs : List Nat,
      digestInput bs = utf8Encode ((univNewlines (decodedChars bs)).map Char.toNat))
  ∧ digestInput [255, 97] = digestInput [97] :=
  ⟨digestInput_eq_encode_decoded, by decide⟩

/-- C4: every classified line increments exactly one of the code,
comment, blank counters, so each scanned file satisfies
`lines = code + comments + blanks`, and the grand totals accumulated by
`run` over any enumerated file list — with or without deduplication —
satisfy `tlines = tcode + tcomments + tblanks` (the `assert` holds). -/
theorem c4_counts_partition_lines :
    (∀ (rule : LangRule) (ls : List (List Char)),
      (scanLines rule ls).lines =
        (scanLines rule ls).code + (scanLines rule ls).comments +
          (scanLines rule ls).blanks)
  ∧ (∀ (argpath : List Char) (includeDup : Bool) (files : List RawInput),
      (pipeline argpath includeDup files).tlines =
        (pipeline argpath includeDup files).tcode +
          (pipeline argpath includeDup files).tcomments +
          (pipeline argpath includeDup files).tblanks) := by
  constructor
  · exact scanLines_partition
  · intro argpath includeDup files
    unfold pipeline
    apply accumulate_partition
    intro f hf
    have hsub : f ∈ files.map
        (fun i => scanfile (mkFilename argpath i.path i.name i.size) i.content) := by
      unfold keptFiles at hf
      split at hf
      · exact hf
      · exact remove_duplicates_subset _ _ hf
    rcases List.mem_map.mp hsub with ⟨i, _, rfl⟩
    exact scanfile_partition _ _ (by simp [mkFilename])

/-- C5 counterexample: with `--output-languages` the run still performs
the directory walk first — `run` calls `listfiles()` before `output()` —
so the walk occurs before the registry dump, contradicting the claim that
the run terminates before any directory walk. -/
theorem c5_counterexample_walk_precedes_dump :
    runEvents true false 0 = [RunEvent.walk, RunEvent.dumpLangs]
  ∧ RunEvent.walk ∈ runEvents true false 0 := by
  decide

/-- C5 amended: with `--output-languages` the run dumps the registry and
terminates before any file scanning (and before deduplication and
reporting), though after the directory walk; the dump content is the
registry alone and requires no file tree. -/
theorem c5_amended_dump_before_scan :
    ∀ (includeDup : Bool) (nfiles : Nat),
      runEvents true includeDup nfiles = [RunEvent.walk, RunEvent.dumpLangs]
    ∧ ¬ RunEvent.scanFile ∈ runEvents true includeDup nfiles
    ∧ dumpLangsContent = langs := by
  intro includeDup nfiles
  have h : runEvents true includeDup nfiles = [RunEvent.walk, RunEvent.dumpLangs] := rfl
  refine ⟨h, ?_, rfl⟩
  rw [h]
  decide

/-- C6 counterexample: a file whose extension has no registry entry does
contribute to the by-directory report — `report_dir` never skips
unresolved records — so a single unknown file produces a directory row
whose file count is 1, contradicting the claim that it contributes
nothing to any row of any report mode. -/
theorem c6_counterexample_dir_row_counts_unknown_file :
    resolve (mkFilename dotPath dotPath (String.toList "x.zzz") 5).extension = none
  ∧ report_dir_rows (remove_duplicates
      [scanfile (mkFilename dotPath dotPath (String.toList "x.zzz") 5)
        (asciiBytes "a\n")]) =
    [([' '].map (fun _ => '.'), 1, 0, 0, 0, 0)] := by
  decide

/-- C6 amended: a file whose extension matches no registry entry is
scanned into an unchanged record (no language, all counts zero); it
appears in no by-file or by-language row and contributes nothing to the
grand totals, but the by-directory report does count it in its
directory's file column (with zero line counts). -/
theorem c6_amended_unknown_file_reports (ap p n : List Char) (s : Nat) (c : List Nat)
    (h : resolve (mkFilename ap p n s).extension = none) :
    (scanfile (mkFilename ap p n s) c).lang = none
  ∧ (scanfile (mkFilename ap p n s) c).lines = 0
  ∧ (scanfile (mkFilename ap p n s) c).code = 0
  ∧ (scanfile (mkFilename ap p n s) c).comments = 0
  ∧ (scanfile (mkFilename ap p n s) c).blanks = 0
  ∧ (∀ l, report_file_rows (scanfile (mkFilename ap p n s) c :: l) = report_file_rows l)
  ∧ (∀ l, report_lang_rows (scanfile (mkFilename ap p n s) c :: l) = report_lang_rows l)
  ∧ (∀ l1 l2, accumulate (l1 ++ scanfile (mkFilename ap p n s) c :: l2) =
      accumulate (l1 ++ l2))
  ∧ report_dir_rows [scanfile (mkFilename ap p n s) c] =
      [((mkFilename ap p n s).shortpath, 1, 0, 0, 0, 0)] := by
  rw [scanfile_unknown (mkFilename ap p n s) c h]
  refine ⟨rfl, rfl, rfl, rfl, rfl, ?_, ?_, ?_, ?_⟩
  · intro l
    exact report_file_rows_cons_of_unresolved _ rfl l
  · intro l
    exact report_lang_rows_cons_of_unresolved _ rfl l
  · intro l1 l2
    exact accumulate_elim_zero _ rfl rfl rfl rfl l1 l2
  · rw [report_dir_rows_singleton (mkFilename ap p n s) rfl]
    rfl

/-- C6 witness: the amended statement at a concrete unknown-extension
file. -/
theorem c6_amended_witness :
    (scanfile (mkFilename dotPath dotPath (String.toList "x.zzz") 5)
      (asciiBytes "a\n")).lang = none :=
  (c6_amended_unknown_file_reports dotPath dotPath (String.toList "x.zzz") 5
    (asciiBytes "a\n") (by decide)).1

/-- C7: for each digest value, deduplication keeps exactly the first
record of the enumeration carrying it and discards the rest; with
`--include` the list is left untouched; and scanning two enumerated
files of byte-identical content (same extension and size) produces equal
digests, so a byte-identical pair collapses to its first member. -/
theorem c7_dedup_keeps_first_per_digest :
    (∀ (l : List Filename) (d : Option (List Nat)),
      (remove_duplicates l).filter (fun f => f.sha == d) =
        (l.filter (fun f => f.sha == d)).take 1)
  ∧ (∀ l : List Filename, keptFiles true l = l)
  ∧ (∀ (ap1 p1 n1 ap2 p2 n2 : List Char) (s : Nat) (c : List Nat),
      (mkFilename ap1 p1 n1 s).extension = (mkFilename ap2 p2 n2 s).extension →
      (scanfile (mkFilename ap1 p1 n1 s) c).sha =
        (scanfile (mkFilename ap2 p2 n2 s) c).sha) := by
  refine ⟨remove_duplicates_filter_key, fun l => rfl, ?_⟩
  intro ap1 p1 n1 ap2 p2 n2 s c hext
  unfold scanfile
  rw [show (mkFilename ap1 p1 n1 s).size = s from rfl,
    show (mkFilename ap2 p2 n2 s).size = s from rfl, hext]
  by_cases hs : s = 0
  · simp [hs, mkFilename]
  · simp only [if_neg hs]
    cases hfind : langs.find?
        (fun pr => pr.2.ext.contains (mkFilename ap2 p2 n2 s).extension) with
    | none => simp [mkFilename]
    | some pr => simp

/-- C7 witness: two byte-identical C files digest equal. -/
theorem c7_dedup_witness :
    (scanfile (mkFilename dotPath dotPath (String.toList "a.c") 2)
        (asciiBytes "a\n")).sha =
      (scanfile (mkFilename dotPath dotPath (String.toList "b.c") 2)
        (asciiBytes "a\n")).sha :=
  c7_dedup_keeps_first_per_digest.2.2 dotPath dotPath (String.toList "a.c")
    dotPath dotPath (String.toList "b.c") 2 (asciiBytes "a\n") (by decide)

/-- C8: resolution is case-insensitive — two extension strings equal up
to letter case resolve to the same registry rule, since the stored
extension is lowercased before the lookup — and a record whose extension
matches nothing is returned by `scanfile` unchanged (skipped, no
error: `scanfile` is a total function into records). -/
theorem c8_resolution_case_insensitive :
    (∀ (e1 e2 : List Char),
      List.Forall₂ (fun a b => lowerChar a = lowerChar b) e1 e2 →
      resolve (lowerStr e1) = resolve (lowerStr e2))
  ∧ (∀ (ap p n : List Char) (s : Nat) (c : List Nat),
      resolve (mkFilename ap p n s).extension = none →
      scanfile (mkFilename ap p n s) c = mkFilename ap p n s) := by
  constructor
  · intro e1 e2 h
    rw [lowerStr_congr h]
  · intro ap p n s c h
    exact scanfile_unknown _ _ h

/-- C8 witness: `".C"` and `".c"` resolve identically, and a concrete
unknown-extension file is skipped unchanged. -/
theorem c8_resolution_witness :
    resolve (lowerStr (String.toList ".C")) = resolve (lowerStr (String.toList ".c"))
  ∧ scanfile (mkFilename dotPath dotPath (String.toList "x.qqq") 5)
      (asciiBytes "a\n") = mkFilename dotPath dotPath (String.toList "x.qqq") 5 :=
  ⟨c8_resolution_case_insensitive.1 (String.toList ".C") (String.toList ".c")
      (List.Forall₂.cons (by decide) (List.Forall₂.cons (by decide) List.Forall₂.nil)),
    c8_resolution_case_insensitive.2 dotPath dotPath (String.toList "x.qqq") 5
      (asciiBytes "a\n") (by decide)⟩

/-- C9: the extension `.mac` is claimed by both IBM Macro and VB, but the
resolution loop walks the registry in declaration order and stops at the
first match, and IBM Macro is declared before VB, so `.mac` (in any
letter case) always resolves to IBM Macro. -/
theorem c9_mac_resolves_to_ibm_macro :
    resolve (String.toList ".mac") = some "IBM Macro"
  ∧ (langs.find? (fun p => p.1 == "IBM Macro")).map
      (fun p => p.2.ext.contains (String.toList ".mac")) = some true
  ∧ (langs.find? (fun p => p.1 == "VB")).map
      (fun p => p.2.ext.contains (String.toList ".mac")) = some true
  ∧ (scanfile (mkFilename dotPath dotPath (String.toList "m.MAC") 1)
      (asciiBytes "a")).lang = some "IBM Macro" := by
  decide

/-- C10: skipped files — zero size or no registry match — keep the
initial digest `None`, and deduplication keeps at most one record whose
digest is `None` (the filter of the deduplicated list by the `None` key
has length at most one). -/
theorem c10_skipped_files_share_none_digest :
    (∀ (ap p n : List Char) (s : Nat) (c : List Nat),
      s = 0 ∨ resolve (mkFilename ap p n s).extension = none →
      (scanfile (mkFilename ap p n s) c).sha = none)
  ∧ (∀ l : List Filename,
      ((remove_duplicates l).filter
        (fun f => f.sha == (none : Option (List Nat)))).length ≤ 1) := by
  constructor
  · intro ap p n s c h
    rcases h with h | h
    · subst h
      simp [scanfile, mkFilename]
    · rw [scanfile_unknown _ _ h]
      rfl
  · intro l
    rw [remove_duplicates_filter_key]
    exact List.length_take_le 1 (l.filter (fun f => f.sha == none))

/-- C10 witness: a zero-size file and an unknown-extension file both come
out of `scanfile` with digest `None`. -/
theorem c10_skipped_witness :
    (scanfile (mkFilename dotPath dotPath (String.toList "z.c") 0) []).sha = none
  ∧ (scanfile (mkFilename dotPath dotPath (String.toList "x.zzz") 5)
      (asciiBytes "a\n")).sha = none :=
  ⟨c10_skipped_files_share_none_digest.1 dotPath dotPath (String.toList "z.c") 0 []
      (Or.inl rfl),
    c10_skipped_files_share_none_digest.1 dotPath dotPath (String.toList "x.zzz") 5
      (asciiBytes "a\n") (Or.inr (by decide))⟩

end Codecount
